import Mathlib

/-!
Verification of the Hate-Analysis batch orchestration core.

Shallow embedding of `load_data.py` (`RateLimit`, `CommentAnalyzer`) and of
the comparison-metric computation in `visualiser.py`.  External effects
(the generative-model call, the interactive retry prompt, the wall clock)
are modelled as explicit parameters: the outcome of the i-th external call
in an invocation of `process_batch` is `att i`, the answer to the i-th
retry prompt is `dec i`, and times are passed in explicitly.
-/

namespace HateAnalysis

/-- One classification outcome for one comment, as parsed from the external
response or synthesized locally (`load_data.py`, the dicts built in
`process_batch`).  `severity` is modelled as an exact rational. -/
structure Verdict where
  is_offensive : Bool
  offense_type : String
  explanation : String
  severity : ℚ
deriving DecidableEq

/-- Outcome of one external classification call: either the response text
parsed successfully as a JSON array of verdicts (`ok`), or the call /
parse raised an exception with message `msg` (`exc`). -/
inductive Attempt where
  | ok (results : List Verdict)
  | exc (msg : String)

/-- The default verdict appended for a comment that is absent from the
pre-filtered subset on the success path of `process_batch`
(`load_data.py` lines 155-160); the explanation depends on
`use_prefilter`. -/
def defaultFill (up : Bool) : Verdict :=
  { is_offensive := false
    offense_type := "none"
    explanation := if up then "No profanity detected by pre-filter"
                   else "Analyzed without pre-filter"
    severity := 0 }

/-- The default verdict returned for the whole batch when the pre-filter
selects nothing (`load_data.py` lines 117-122). -/
def preDefault : Verdict :=
  { is_offensive := false
    offense_type := "none"
    explanation := "No profanity detected by pre-filter"
    severity := 0 }

/-- The sentinel verdict built after retries are exhausted or declined
(`load_data.py` lines 179-184). -/
def errorVerdict (rc : Nat) (lastError : String) : Verdict :=
  { is_offensive := false
    offense_type := "error"
    explanation := "Error in analysis after " ++ toString rc ++ " attempts: " ++ lastError
    severity := 0 }

/-- The full-length error batch returned on the retry-exhaustion path. -/
def errorBatch (comments : List String) (rc : Nat) (lastError : String) : List Verdict :=
  List.replicate comments.length (errorVerdict rc lastError)

/-- `pre_filter_comments` (`load_data.py` line 70-71): keep the comments
the profanity lexicon flags, preserving order and duplicates.  The lexicon
itself is an external library, abstracted as the predicate `profane`. -/
def pre_filter_comments (profane : String → Bool) (comments : List String) : List String :=
  comments.filter profane

/-- The reconciliation loop on the success path of `process_batch`
(`load_data.py` lines 147-162): walk the original comments; a comment that
is a member of `pot` consumes the parsed result at the running index, any
other comment gets `defaultFill`.  `none` models the `IndexError` raised
by `results[result_idx]` when the parsed array is too short (caught by the
surrounding `try`). -/
def reconcile (up : Bool) (pot : List String) (results : List Verdict) :
    List String → Nat → Option (List Verdict)
  | [], _ => some []
  | c :: rest, idx =>
    if c ∈ pot then
      match results.get? idx with
      | none => none
      | some v => (reconcile up pot results rest (idx + 1)).map (fun out => v :: out)
    else
      (reconcile up pot results rest idx).map (fun out => defaultFill up :: out)

/-- Error message of a Python `IndexError` from `results[result_idx]`. -/
def idxErr : String := "list index out of range"

/-- The retry loop of `process_batch` (`load_data.py` lines 126-184),
with `fuel = max_retries - retry_count`.  Each iteration consumes one
external call (`att rc`); on failure with attempts remaining, the user
answer `dec (rc+1)` decides between retrying and breaking out.  Returns
the verdicts together with the number of external calls made. -/
def runAttempts (up : Bool) (comments pot : List String) (att : Nat → Attempt)
    (dec : Nat → Bool) : Nat → Nat → String → Nat → List Verdict × Nat
  | 0, rc, lastError, calls => (errorBatch comments rc lastError, calls)
  | fuel + 1, rc, _, calls =>
    match att rc with
    | .ok results =>
      match reconcile up pot results comments 0 with
      | some final => (final, calls + 1)
      | none =>
        if fuel = 0 then (errorBatch comments (rc + 1) idxErr, calls + 1)
        else if dec (rc + 1) then
          runAttempts up comments pot att dec fuel (rc + 1) idxErr (calls + 1)
        else (errorBatch comments (rc + 1) idxErr, calls + 1)
    | .exc msg =>
      if fuel = 0 then (errorBatch comments (rc + 1) msg, calls + 1)
      else if dec (rc + 1) then
        runAttempts up comments pot att dec fuel (rc + 1) msg (calls + 1)
      else (errorBatch comments (rc + 1) msg, calls + 1)

/-- `CommentAnalyzer.process_batch` (`load_data.py` lines 110-184).
Returns the verdict list and the number of external calls made.
`max_retries = 3`. -/
def process_batch (profane : String → Bool) (att : Nat → Attempt) (dec : Nat → Bool)
    (up : Bool) (comments : List String) : List Verdict × Nat :=
  if up then
    let pot := pre_filter_comments profane comments
    if pot.isEmpty then (List.replicate comments.length preDefault, 0)
    else runAttempts true comments pot att dec 3 0 "" 0
  else runAttempts false comments comments att dec 3 0 "" 0

/-- A wall-clock instant: the calendar date (`day`) as used by
`datetime.date()` comparisons, and the absolute time in seconds (`sec`)
as used by `datetime` subtraction. -/
structure DateTime where
  day : Int
  sec : Int
deriving DecidableEq

/-- `RateLimit.__init__` state (`load_data.py` lines 22-27). -/
structure RateLimit where
  requests_today : Nat
  last_request_time : Option DateTime
  requests_this_minute : Nat
  day_start : DateTime
deriving DecidableEq

/-- `RateLimit.can_make_request` (`load_data.py` lines 29-46); returns the
boolean together with the mutated state, `current` standing for
`datetime.now()`. -/
def can_make_request (s : RateLimit) (current : DateTime) : Bool × RateLimit :=
  let s1 := if current.day ≠ s.day_start.day then
              { s with requests_today := 0, day_start := current }
            else s
  if s1.requests_today ≥ 50 then (false, s1)
  else
    let s2 := match s1.last_request_time with
      | some last =>
        if current.sec - last.sec ≥ 60 then { s1 with requests_this_minute := 0 } else s1
      | none => s1
    if s2.requests_this_minute ≥ 15 then (false, s2) else (true, s2)

/-- `RateLimit.record_request` (`load_data.py` lines 48-52). -/
def record_request (s : RateLimit) (current : DateTime) : RateLimit :=
  { s with requests_today := s.requests_today + 1
           requests_this_minute := s.requests_this_minute + 1
           last_request_time := some current }

/-- Quota state reached by polling the gate once per instant in `ts`
(`while not self.rate_limiter.can_make_request(): time.sleep(2)`,
`load_data.py` line 132-133). -/
def pollGate (s : RateLimit) (ts : List DateTime) : RateLimit :=
  ts.foldl (fun st t => (can_make_request st t).snd) s

/-- Quota state after an attempt whose external call raised: the gate was
polled at instants `ts`, `generate_content` raised, so line 137's
`record_request` never ran (`load_data.py` lines 130-137). -/
def failedAttemptQuota (s : RateLimit) (ts : List DateTime) : RateLimit :=
  pollGate s ts

/-- Quota state after an attempt whose external call returned: the gate
was polled at instants `ts` and `record_request` ran at instant `t`. -/
def successAttemptQuota (s : RateLimit) (ts : List DateTime) (t : DateTime) : RateLimit :=
  record_request (pollGate s ts) t

/-- One row of the Result Table: the verdict dict after
`analyze_all_comments` adds `comment_id`, `username` and
`original_comment` (`load_data.py` lines 209-212). -/
structure Row where
  comment_id : Nat
  username : String
  original_comment : String
  verdict : Verdict
deriving DecidableEq

/-- Row built for the comment at absolute position `p` with text `c`. -/
def mkRow (p : Nat) (c : String) (v : Verdict) : Row :=
  { comment_id := p
    username := "user_" ++ toString p
    original_comment := c
    verdict := v }

/-- The per-result loop of `analyze_all_comments` (`load_data.py` lines
209-212): `for i, result in enumerate(batch_results)` attaching
`start_idx + i`, `user_<start_idx+i>` and `batch_comments[i]`.  `none`
models the `IndexError` when `batch_results` is longer than
`batch_comments` (caught by the surrounding `try`). -/
def annotate (start : Nat) (batch : List String) :
    List Verdict → Nat → Option (List Row)
  | [], _ => some []
  | v :: vs, i =>
    match batch.get? i with
    | none => none
    | some c =>
      (annotate start batch vs (i + 1)).map (fun rows => mkRow (start + i) c v :: rows)

/-- The truncation in `CommentAnalyzer.load_data` (`load_data.py` lines
79-84): if the dataset exceeds `batch_size * max_batches` comments, keep
only the head of that size. -/
def load_data_truncate (data : List String) (bs mb : Nat) : List String :=
  if data.length > bs * mb then data.take (bs * mb) else data

/-- `min(self.max_batches, (total + bs - 1) // bs)`
(`load_data.py` line 192). -/
def num_batches (total bs mb : Nat) : Nat :=
  min mb ((total + bs - 1) / bs)

/-- The slice handed to batch `bn`:
`self.data['comment_text'].iloc[start_idx:end_idx]` with
`end_idx = min(start_idx + bs, total)` (`load_data.py` lines 198-200). -/
def batchSlice (data : List String) (bs bn : Nat) : List String :=
  (data.drop (bn * bs)).take (min (bn * bs + bs) data.length - bn * bs)

/-- Coordinator state: the accumulated `results` list and the contents of
the fixed checkpoint file `partial_results.csv` (`none` before the first
write). -/
structure RunState where
  results : List Row
  checkpoint : Option (List Row)
deriving DecidableEq

/-- One iteration of the batch loop in `analyze_all_comments`
(`load_data.py` lines 197-230).  `doBatch bn batch` is the body of the
`try`: `some rows` when it produces annotated results, `none` when it
raises (the `except` path checkpoints the accumulated results unchanged
and continues). -/
def runStep (doBatch : Nat → List String → Option (List Row)) (data : List String)
    (bs : Nat) (st : RunState) (bn : Nat) : RunState :=
  match doBatch bn (batchSlice data bs bn) with
  | some rows => { results := st.results ++ rows, checkpoint := some (st.results ++ rows) }
  | none => { st with checkpoint := some st.results }

/-- State after the first `n` iterations of the batch loop. -/
def runBatches (doBatch : Nat → List String → Option (List Row)) (data : List String)
    (bs n : Nat) : RunState :=
  (List.range n).foldl (runStep doBatch data bs) { results := [], checkpoint := none }

/-- `analyze_all_comments` batch loop over all `num_batches` batches,
generic in the per-batch body. -/
def analyze_all (doBatch : Nat → List String → Option (List Row)) (data : List String)
    (bs mb : Nat) : RunState :=
  runBatches doBatch data bs (num_batches data.length bs mb)

/-- The actual body of one `try` block in `analyze_all_comments`:
classify the batch with `process_batch`, then attach ids, usernames and
original texts (`load_data.py` lines 206-212).  `att bn` / `dec bn` give
the call outcomes and retry answers for batch `bn`. -/
def coordinatorBatch (profane : String → Bool) (att : Nat → Nat → Attempt)
    (dec : Nat → Nat → Bool) (up : Bool) (bs bn : Nat) (batch : List String) :
    Option (List Row) :=
  annotate (bn * bs) batch (process_batch profane (att bn) (dec bn) up batch).fst 0

/-- `CommentAnalyzer.analyze_all_comments` over data already loaded by
`load_data` (`load_data.py` lines 73-92 and 186-233), with
`batch_size = bs` and `max_batches = mb`. -/
def analyze_all_comments (profane : String → Bool) (att : Nat → Nat → Attempt)
    (dec : Nat → Nat → Bool) (up : Bool) (data : List String) (bs mb : Nat) : RunState :=
  analyze_all (coordinatorBatch profane att dec up bs) (load_data_truncate data bs mb) bs mb

/-- The columns of one result row consumed by
`HateSpeechVisualizer.compare_prefilter_results`
(`visualiser.py` lines 27-32). -/
structure CmpRow where
  comment_id : Nat
  is_offensive : Bool
  offense_type : String
  severity : ℚ
deriving DecidableEq

/-- `pd.merge(..., on='comment_id')` (inner join, left order):
each left row paired with every right row sharing its `comment_id`
(`visualiser.py` lines 27-32). -/
def mergeRows (l r : List CmpRow) : List (CmpRow × CmpRow) :=
  l.flatMap (fun a => (r.filter (fun b => b.comment_id == a.comment_id)).map (fun b => (a, b)))

/-- The confusion counts (tp, fp, fn, tn) read off the crosstab in
`compare_prefilter_results` (`visualiser.py` lines 35-46): the first
component of each pair is the pre-filtered flag, the second the original
flag. -/
def confusionCounts (merged : List (CmpRow × CmpRow)) : Nat × Nat × Nat × Nat :=
  ((merged.filter (fun p => p.1.is_offensive && p.2.is_offensive)).length,
   (merged.filter (fun p => p.1.is_offensive && !p.2.is_offensive)).length,
   (merged.filter (fun p => !p.1.is_offensive && p.2.is_offensive)).length,
   (merged.filter (fun p => !p.1.is_offensive && !p.2.is_offensive)).length)

/-- The metric block of `compare_prefilter_results`
(`visualiser.py` lines 23-32 and 98-101), called with
`n_samples = None`, so `n_samples = min(len(data), len(original))` and
the merged table is truncated with `.head(n_samples)`.  Arithmetic is
modelled over exact rationals.  Returns
(accuracy, precision, recall, f1). -/
def compare_prefilter_results (filtered original : List CmpRow) : ℚ × ℚ × ℚ × ℚ :=
  let n : Nat := min filtered.length original.length
  let merged := (mergeRows filtered original).take n
  match confusionCounts merged with
  | (tp, fp, fnc, tn) =>
    let accuracy : ℚ := ((tp : ℚ) + tn) / n
    let precision : ℚ := if tp + fp > 0 then (tp : ℚ) / ((tp : ℚ) + fp) else 0
    let recallM : ℚ := if tp + fnc > 0 then (tp : ℚ) / ((tp : ℚ) + fnc) else 0
    let f1 : ℚ := if precision + recallM > 0 then
                    2 * (precision * recallM) / (precision + recallM) else 0
    (accuracy, precision, recallM, f1)

/-- The list of slices fed to `process_batch` by the batch loop, in
order (`load_data.py` lines 197-200). -/
def batchSlices (data : List String) (bs mb : Nat) : List (List String) :=
  (List.range (num_batches data.length bs mb)).map (batchSlice data bs)

/-- Number of elements of `l` that are members of the pre-filtered subset
`pot`; `selCount pot (comments.take i)` is the value of `result_idx` when
the reconciliation loop of `process_batch` reaches position `i`. -/
def selCount (pot l : List String) : Nat :=
  (l.filter (fun c => decide (c ∈ pot))).length

/-- A sample parsed verdict, used to instantiate witnesses. -/
def sampleVerdict : Verdict :=
  { is_offensive := true, offense_type := "profanity"
    explanation := "strong language", severity := 1 }

/-- A verdict an external response could contain: the model flags the
comment offensive but labels its type "none".  `process_batch` accepts it
unvalidated. -/
def inconsistentVerdict : Verdict :=
  { is_offensive := true, offense_type := "none"
    explanation := "external response", severity := 1 }

/-- Pre-filtered result table of the four-row comparison scenario. -/
def cmpFiltered : List CmpRow :=
  [⟨0, true, "toxicity", 1/2⟩, ⟨1, true, "profanity", 3/5⟩,
   ⟨2, true, "harassment", 7/10⟩, ⟨3, false, "none", 0⟩]

/-- Original result table of the four-row comparison scenario: agreement
counts tp = 2, fp = 1, fn = 0, tn = 1 against `cmpFiltered`. -/
def cmpOriginal : List CmpRow :=
  [⟨0, true, "toxicity", 1/2⟩, ⟨1, true, "profanity", 3/5⟩,
   ⟨2, false, "none", 0⟩, ⟨3, false, "none", 0⟩]

/-! ### Lemmas about the reconciliation loop -/

theorem reconcile_length (up : Bool) (pot : List String) (results : List Verdict) :
    ∀ (comments : List String) (idx : Nat) (out : List Verdict),
      reconcile up pot results comments idx = some out → out.length = comments.length := by
  intro comments
  induction comments with
  | nil =>
    intro idx out h
    simp only [reconcile, Option.some.injEq] at h
    subst h; rfl
  | cons c rest ih =>
    intro idx out h
    by_cases hc : c ∈ pot
    · simp only [reconcile, if_pos hc] at h
      cases hg : results.get? idx with
      | none => rw [hg] at h; exact absurd h (by simp)
      | some v =>
        rw [hg] at h
        rw [Option.map_eq_some'] at h
        obtain ⟨a, ha, hout⟩ := h
        subst hout
        simp [ih (idx + 1) a ha]
    · simp only [reconcile, if_neg hc] at h
      rw [Option.map_eq_some'] at h
      obtain ⟨a, ha, hout⟩ := h
      subst hout
      simp [ih idx a ha]

theorem reconcile_get (up : Bool) (pot : List String) (results : List Verdict) :
    ∀ (comments : List String) (idx : Nat) (out : List Verdict),
      reconcile up pot results comments idx = some out →
      ∀ (i : Nat) (c : String), comments.get? i = some c →
        (c ∈ pot → out.get? i = results.get? (idx + selCount pot (comments.take i))) ∧
        (c ∉ pot → out.get? i = some (defaultFill up)) := by
  intro comments
  induction comments with
  | nil => intro idx out _ i c hi; simp at hi
  | cons c0 rest ih =>
    intro idx out h i c hi
    by_cases hc0 : c0 ∈ pot
    · simp only [reconcile, if_pos hc0] at h
      cases hg : results.get? idx with
      | none => rw [hg] at h; exact absurd h (by simp)
      | some v =>
        rw [hg] at h
        rw [Option.map_eq_some'] at h
        obtain ⟨a, ha, hout⟩ := h
        subst hout
        cases i with
        | zero =>
          simp only [List.get?] at hi
          injection hi with hi; subst hi
          constructor
          · intro _
            simp only [selCount, List.take, List.filter_nil, List.length_nil, Nat.add_zero,
              List.get?]
            exact hg.symm
          · intro hcn; exact absurd hc0 hcn
        | succ j =>
          simp only [List.get?] at hi
          have := ih (idx + 1) a ha j c hi
          constructor
          · intro hcp
            have h1 := this.1 hcp
            simp only [List.get?, List.take, selCount, List.filter_cons, decide_eq_true hc0]
            simp only [selCount] at h1
            rw [h1]
            congr 1
            simp [List.length_cons]
            omega
          · intro hcn
            simpa using this.2 hcn
    · simp only [reconcile, if_neg hc0] at h
      rw [Option.map_eq_some'] at h
      obtain ⟨a, ha, hout⟩ := h
      subst hout
      cases i with
      | zero =>
        simp only [List.get?] at hi
        injection hi with hi; subst hi
        exact ⟨fun hcp => absurd hcp hc0, fun _ => rfl⟩
      | succ j =>
        simp only [List.get?] at hi
        have := ih idx a ha j c hi
        constructor
        · intro hcp
          have h1 := this.1 hcp
          simp only [List.get?, List.take, selCount, List.filter_cons]
          rw [decide_eq_false hc0]
          simpa [selCount] using h1
        · intro hcn
          simpa using this.2 hcn

theorem reconcile_mem (up : Bool) (pot : List String) (results : List Verdict) :
    ∀ (comments : List String) (idx : Nat) (out : List Verdict),
      reconcile up pot results comments idx = some out →
      ∀ v ∈ out, v ∈ results ∨ v = defaultFill up := by
  intro comments
  induction comments with
  | nil =>
    intro idx out h v hv
    simp only [reconcile, Option.some.injEq] at h
    subst h; simp at hv
  | cons c0 rest ih =>
    intro idx out h v hv
    by_cases hc0 : c0 ∈ pot
    · simp only [reconcile, if_pos hc0] at h
      cases hg : results.get? idx with
      | none => rw [hg] at h; exact absurd h (by simp)
      | some w =>
        rw [hg] at h
        rw [Option.map_eq_some'] at h
        obtain ⟨a, ha, hout⟩ := h
        subst hout
        rcases List.mem_cons.mp hv with hv | hv
        · subst hv; exact Or.inl (List.get?_mem hg)
        · exact ih (idx + 1) a ha v hv
    · simp only [reconcile, if_neg hc0] at h
      rw [Option.map_eq_some'] at h
      obtain ⟨a, ha, hout⟩ := h
      subst hout
      rcases List.mem_cons.mp hv with hv | hv
      · subst hv; exact Or.inr rfl
      · exact ih idx a ha v hv

/-! ### Lemmas about the retry loop and `process_batch` -/

theorem errorBatch_length (comments : List String) (rc : Nat) (e : String) :
    (errorBatch comments rc e).length = comments.length := by
  simp [errorBatch]

theorem runAttempts_fst_length (up : Bool) (comments pot : List String)
    (att : Nat → Attempt) (dec : Nat → Bool) :
    ∀ (fuel rc : Nat) (le : String) (calls : Nat),
      (runAttempts up comments pot att dec fuel rc le calls).fst.length = comments.length := by
  intro fuel
  induction fuel with
  | zero => intro rc le calls; simp [runAttempts, errorBatch]
  | succ n ih =>
    intro rc le calls
    simp only [runAttempts]
    cases att rc with
    | ok results =>
      cases hr : reconcile up pot results comments 0 with
      | none =>
        simp only [hr]
        split
        · exact errorBatch_length ..
        · split
          · exact ih ..
          · exact errorBatch_length ..
      | some final =>
        simp only [hr]
        exact reconcile_length up pot results comments 0 final hr
    | exc msg =>
      simp only []
      split
      · exact errorBatch_length ..
      · split
        · exact ih ..
        · exact errorBatch_length ..

theorem runAttempts_fst_cases (up : Bool) (comments pot : List String)
    (att : Nat → Attempt) (dec : Nat → Bool) :
    ∀ (fuel rc : Nat) (le : String) (calls : Nat),
      (∃ i results out, att i = Attempt.ok results ∧
        reconcile up pot results comments 0 = some out ∧
        (runAttempts up comments pot att dec fuel rc le calls).fst = out) ∨
      (∃ rc' e', (runAttempts up comments pot att dec fuel rc le calls).fst =
        errorBatch comments rc' e') := by
  intro fuel
  induction fuel with
  | zero => intro rc le calls; exact Or.inr ⟨rc, le, rfl⟩
  | succ n ih =>
    intro rc le calls
    simp only [runAttempts]
    cases ha : att rc with
    | ok results =>
      cases hr : reconcile up pot results comments 0 with
      | none =>
        simp only [hr]
        split
        · exact Or.inr ⟨rc + 1, idxErr, rfl⟩
        · split
          · exact ih ..
          · exact Or.inr ⟨rc + 1, idxErr, rfl⟩
      | some final =>
        simp only [hr]
        exact Or.inl ⟨rc, results, final, ha, hr, rfl⟩
    | exc msg =>
      simp only []
      split
      · exact Or.inr ⟨rc + 1, msg, rfl⟩
      · split
        · exact ih ..
        · exact Or.inr ⟨rc + 1, msg, rfl⟩

theorem process_batch_fst_length (profane : String → Bool) (att : Nat → Attempt)
    (dec : Nat → Bool) (up : Bool) (comments : List String) :
    (process_batch profane att dec up comments).fst.length = comments.length := by
  cases up with
  | false => exact runAttempts_fst_length ..
  | true =>
    by_cases hp : (pre_filter_comments profane comments).isEmpty
    · simp [process_batch, hp]
    · simp only [process_batch, hp, if_true, if_false, Bool.false_eq_true]
      exact runAttempts_fst_length ..

/-! ### Claim theorems -/

/-- Claim C1: for every input list of comments and both pre-filter
configurations, `process_batch` returns one verdict per input comment on
every return path (short-circuit, success, retry exhaustion); and the
success-path reconciliation preserves input order: the comment at
position `i`, when in the pre-filtered subset, consumes the next parsed
result in order (the one at index `selCount pot (comments.take i)`),
and otherwise receives the synthesized default non-offensive verdict. -/
theorem process_batch_length_and_order (profane : String → Bool) (att : Nat → Attempt)
    (dec : Nat → Bool) (up : Bool) (comments : List String) :
    (process_batch profane att dec up comments).fst.length = comments.length ∧
    ∀ (pot : List String) (results out : List Verdict),
      reconcile up pot results comments 0 = some out →
      ∀ (i : Nat) (c : String), comments.get? i = some c →
        (c ∈ pot → out.get? i = results.get? (selCount pot (comments.take i))) ∧
        (c ∉ pot → out.get? i = some (defaultFill up)) := by
  refine ⟨process_batch_fst_length .., ?_⟩
  intro pot results out h i c hi
  have := reconcile_get up pot results comments 0 out h i c hi
  simpa using this

theorem process_batch_length_and_order_witness :
    (process_batch (fun _ => true) (fun _ => Attempt.ok [sampleVerdict]) (fun _ => true)
      false ["a"]).fst.length = 1 ∧
    ([sampleVerdict] : List Verdict).get? 0 =
      ([sampleVerdict] : List Verdict).get? (selCount ["a"] (List.take 0 ["a"])) := by
  have h := process_batch_length_and_order (fun _ => true)
    (fun _ => Attempt.ok [sampleVerdict]) (fun _ => true) false ["a"]
  refine ⟨h.1, ?_⟩
  exact (h.2 ["a"] [sampleVerdict] [sampleVerdict] rfl 0 "a" rfl).1 (by decide)

/-- Claim C2: if the external call fails on all three attempts, or the
user declines a retry, `process_batch` returns a batch of the same length
as its input in which every verdict has offense_type "error",
is_offensive false, severity 0, and an explanation citing the number of
attempts made and the last error message. -/
theorem process_batch_retry_exhaustion (profane : String → Bool) (e : Nat → String)
    (att : Nat → Attempt) (dec : Nat → Bool) (up : Bool) (comments : List String)
    (hpre : up = true → ¬(pre_filter_comments profane comments).isEmpty)
    (hatt : ∀ i, i < 3 → att i = Attempt.exc (e i)) :
    (process_batch profane att dec up comments).fst =
      List.replicate comments.length
        (errorVerdict (if dec 1 = false then 1 else if dec 2 = false then 2 else 3)
          (e ((if dec 1 = false then 1 else if dec 2 = false then 2 else 3) - 1))) ∧
    ∀ v ∈ (process_batch profane att dec up comments).fst,
      v.offense_type = "error" ∧ v.is_offensive = false ∧ v.severity = 0 := by
  have h0 := hatt 0 (by omega)
  have h1 := hatt 1 (by omega)
  have h2 := hatt 2 (by omega)
  have hrun : ∀ pot : List String,
      (runAttempts up comments pot att dec 3 0 "" 0).fst =
        List.replicate comments.length
          (errorVerdict (if dec 1 = false then 1 else if dec 2 = false then 2 else 3)
            (e ((if dec 1 = false then 1 else if dec 2 = false then 2 else 3) - 1))) := by
    intro pot
    cases hd1 : dec 1 <;> cases hd2 : dec 2 <;>
      simp [runAttempts, h0, h1, h2, hd1, hd2, errorBatch]
  have hmain : (process_batch profane att dec up comments).fst =
      List.replicate comments.length
        (errorVerdict (if dec 1 = false then 1 else if dec 2 = false then 2 else 3)
          (e ((if dec 1 = false then 1 else if dec 2 = false then 2 else 3) - 1))) := by
    cases up with
    | false => exact hrun comments
    | true =>
      have hp := hpre rfl
      have hpb : process_batch profane att dec true comments =
          runAttempts true comments (pre_filter_comments profane comments) att dec 3 0 "" 0 := by
        simp [process_batch, hp]
      rw [hpb]
      exact hrun (pre_filter_comments profane comments)
  refine ⟨hmain, ?_⟩
  intro v hv
  rw [hmain] at hv
  have := List.eq_of_mem_replicate hv
  subst this
  exact ⟨rfl, rfl, rfl⟩

theorem process_batch_retry_exhaustion_witness :
    (process_batch (fun _ => true) (fun _ => Attempt.exc "boom") (fun _ => true)
      false ["a"]).fst = List.replicate 1 (errorVerdict 3 "boom") := by
  have h := process_batch_retry_exhaustion (fun _ => true) (fun _ => "boom")
    (fun _ => Attempt.exc "boom") (fun _ => true) false ["a"]
    (fun hup => absurd hup (by decide)) (fun i _ => rfl)
  simpa using h.1

/-- Claim C5: with the pre-filter enabled and no comment matching the
lexicon, `process_batch` short-circuits: zero external calls, and every
comment receives the default verdict (not offensive, offense_type "none",
severity 0, explanation "No profanity detected by pre-filter"); and on
the success path the same default verdict is assigned to every comment
outside the pre-filtered subset, at any position in the batch. -/
theorem process_batch_prefilter_defaults (profane : String → Bool) (att : Nat → Attempt)
    (dec : Nat → Bool) (comments : List String) :
    preDefault.is_offensive = false ∧ preDefault.offense_type = "none" ∧
    preDefault.severity = 0 ∧
    preDefault.explanation = "No profanity detected by pre-filter" ∧
    defaultFill true = preDefault ∧
    (pre_filter_comments profane comments = [] →
      process_batch profane att dec true comments =
        (List.replicate comments.length preDefault, 0)) ∧
    (∀ (pot : List String) (results out : List Verdict) (i : Nat) (c : String),
      reconcile true pot results comments 0 = some out →
      comments.get? i = some c → c ∉ pot →
      out.get? i = some preDefault) := by
  refine ⟨rfl, rfl, rfl, rfl, rfl, ?_, ?_⟩
  · intro hp
    simp [process_batch, hp]
  · intro pot results out i c h hi hc
    have := (reconcile_get true pot results comments 0 out h i c hi).2 hc
    simpa using this

theorem process_batch_prefilter_defaults_witness :
    process_batch (fun _ => false) (fun _ => Attempt.exc "never") (fun _ => true) true
      ["hello", "world"] = (List.replicate 2 preDefault, 0) := by
  have h := process_batch_prefilter_defaults (fun _ => false) (fun _ => Attempt.exc "never")
    (fun _ => true) ["hello", "world"]
  simpa using h.2.2.2.2.2.1 rfl

/-- Claim C8 counterexample: the code never validates verdicts parsed from
an accepted external response, so a response claiming a comment is
offensive while labelling its offense_type "none" flows into the Result
Table unchanged — the claimed invariant
(offense_type = "none" → ¬is_offensive) fails there. -/
theorem verdict_invariant_counterexample :
    ∃ r ∈ (analyze_all_comments (fun _ => true)
        (fun _ _ => Attempt.ok [inconsistentVerdict]) (fun _ _ => true)
        false ["hello"] 20 50).results,
      r.verdict.offense_type = "none" ∧ r.verdict.is_offensive = true := by
  decide

/-- Claim C8 (amended): the invariant holds for every verdict
`process_batch` synthesizes itself, and under the assumption that every
verdict parsed from an accepted external response satisfies it and is
never labelled "error", it holds for the whole output: offense_type
"none" implies not offensive, and an "error" verdict occurs only on the
retry-exhaustion path, where the whole batch is the error sentinel. -/
theorem verdict_invariant_amended (profane : String → Bool) (att : Nat → Attempt)
    (dec : Nat → Bool) (up : Bool) (comments : List String)
    (hok : ∀ i results, att i = Attempt.ok results →
      ∀ v ∈ results, (v.offense_type = "none" → v.is_offensive = false) ∧
        v.offense_type ≠ "error") :
    (∀ v ∈ (process_batch profane att dec up comments).fst,
      v.offense_type = "none" → v.is_offensive = false) ∧
    (∀ v ∈ (process_batch profane att dec up comments).fst,
      v.offense_type = "error" →
      ∃ rc e, (process_batch profane att dec up comments).fst =
        List.replicate comments.length (errorVerdict rc e)) := by
  have hshape :
      ((process_batch profane att dec up comments).fst =
        List.replicate comments.length preDefault) ∨
      (∃ pot results out i, att i = Attempt.ok results ∧
        reconcile up pot results comments 0 = some out ∧
        (process_batch profane att dec up comments).fst = out) ∨
      (∃ rc e, (process_batch profane att dec up comments).fst =
        errorBatch comments rc e) := by
    cases up with
    | false =>
      rcases runAttempts_fst_cases false comments comments att dec 3 0 "" 0 with
        ⟨i, results, out, ha, hr, he⟩ | ⟨rc, e, he⟩
      · exact Or.inr (Or.inl ⟨comments, results, out, i, ha, hr, he⟩)
      · exact Or.inr (Or.inr ⟨rc, e, he⟩)
    | true =>
      by_cases hp : (pre_filter_comments profane comments).isEmpty
      · exact Or.inl (by simp [process_batch, hp])
      · have hpb : (process_batch profane att dec true comments) =
            runAttempts true comments (pre_filter_comments profane comments) att dec 3 0 "" 0 := by
          simp [process_batch, hp]
        rcases runAttempts_fst_cases true comments (pre_filter_comments profane comments)
            att dec 3 0 "" 0 with ⟨i, results, out, ha, hr, he⟩ | ⟨rc, e, he⟩
        · exact Or.inr (Or.inl ⟨_, results, out, i, ha, hr, by rw [hpb]; exact he⟩)
        · exact Or.inr (Or.inr ⟨rc, e, by rw [hpb]; exact he⟩)
  rcases hshape with h | ⟨pot, results, out, i, ha, hr, he⟩ | ⟨rc, e, he⟩
  · constructor
    · intro v hv _
      rw [h] at hv
      have := List.eq_of_mem_replicate hv
      subst this; rfl
    · intro v hv hverr
      rw [h] at hv
      have := List.eq_of_mem_replicate hv
      subst this
      exact absurd hverr (by decide)
  · constructor
    · intro v hv hn
      rw [he] at hv
      rcases reconcile_mem up pot results comments 0 out hr v hv with hres | hdef
      · exact (hok i results ha v hres).1 hn
      · subst hdef; rfl
    · intro v hv hverr
      rw [he] at hv
      rcases reconcile_mem up pot results comments 0 out hr v hv with hres | hdef
      · exact absurd hverr (hok i results ha v hres).2
      · subst hdef
        have hne : (defaultFill up).offense_type = "none" := rfl
        rw [hne] at hverr
        exact absurd hverr (by decide)
  · constructor
    · intro v hv hn
      rw [he] at hv
      have hv' : v ∈ List.replicate comments.length (errorVerdict rc e) := hv
      have := List.eq_of_mem_replicate hv'
      subst this
      have herr : (errorVerdict rc e).offense_type = "error" := rfl
      rw [herr] at hn
      exact absurd hn (by decide)
    · intro v _ _
      exact ⟨rc, e, he⟩

theorem verdict_invariant_amended_witness :
    ∃ rc e, (process_batch (fun _ => true) (fun _ => Attempt.exc "boom") (fun _ => true)
      false ["a"]).fst = List.replicate (List.length ["a"]) (errorVerdict rc e) := by
  have h := verdict_invariant_amended (fun _ => true) (fun _ => Attempt.exc "boom")
    (fun _ => true) false ["a"]
    (fun i results hi => absurd hi (by simp))
  exact h.2 (errorVerdict 3 "boom") (by decide) rfl

theorem can_make_request_snd_counters (s : RateLimit) (t : DateTime) :
    (can_make_request s t).snd.requests_today ≤ s.requests_today ∧
    (can_make_request s t).snd.requests_this_minute ≤ s.requests_this_minute ∧
    (can_make_request s t).snd.last_request_time = s.last_request_time := by
  rcases hl : s.last_request_time with _ | last <;>
    by_cases hd : t.day = s.day_start.day <;>
      simp [can_make_request, hd, hl] <;> split_ifs <;> simp_all

theorem pollGate_counters (ts : List DateTime) : ∀ s : RateLimit,
    (pollGate s ts).requests_today ≤ s.requests_today ∧
    (pollGate s ts).requests_this_minute ≤ s.requests_this_minute ∧
    (pollGate s ts).last_request_time = s.last_request_time := by
  induction ts with
  | nil => intro s; exact ⟨le_refl _, le_refl _, rfl⟩
  | cons t rest ih =>
    intro s
    have h1 := can_make_request_snd_counters s t
    have h2 := ih ((can_make_request s t).snd)
    simp only [pollGate, List.foldl] at h2 ⊢
    exact ⟨le_trans h2.1 h1.1, le_trans h2.2.1 h1.2.1, h2.2.2.trans h1.2.2⟩

/-- Claim C3: `can_make_request` returns true exactly when neither ceiling
is reached after the rollovers: the effective daily count (reset to 0 when
the current date differs from `day_start`) is below 50 and the effective
minute count (reset to 0 when at least 60 seconds have elapsed since
`last_request_time`) is below 15; the daily counter in the returned state
is the effective daily count, and when the daily gate passes, the minute
counter in the returned state is the effective minute count. -/
theorem can_make_request_spec (s : RateLimit) (t : DateTime) :
    ((can_make_request s t).fst = true ↔
      (if t.day = s.day_start.day then s.requests_today else 0) < 50 ∧
      (match s.last_request_time with
        | some last => if t.sec - last.sec ≥ 60 then 0 else s.requests_this_minute
        | none => s.requests_this_minute) < 15) ∧
    (can_make_request s t).snd.requests_today =
      (if t.day = s.day_start.day then s.requests_today else 0) ∧
    ((if t.day = s.day_start.day then s.requests_today else 0) < 50 →
      (can_make_request s t).snd.requests_this_minute =
        (match s.last_request_time with
          | some last => if t.sec - last.sec ≥ 60 then 0 else s.requests_this_minute
          | none => s.requests_this_minute)) := by
  rcases hl : s.last_request_time with _ | last <;>
    by_cases hd : t.day = s.day_start.day <;>
      simp [can_make_request, hd, hl] <;> split_ifs <;> simp_all

theorem can_make_request_spec_witness :
    (can_make_request ⟨50, some ⟨0, 0⟩, 15, ⟨0, 0⟩⟩ ⟨1, 100⟩).fst = true ∧
    (can_make_request ⟨50, some ⟨0, 0⟩, 15, ⟨0, 0⟩⟩ ⟨1, 100⟩).snd.requests_this_minute = 0 := by
  have h := can_make_request_spec ⟨50, some ⟨0, 0⟩, 15, ⟨0, 0⟩⟩ ⟨1, 100⟩
  refine ⟨h.1.mpr (by decide), ?_⟩
  have h3 := h.2.2 (by decide)
  simpa using h3

/-- Claim C10 counterexample: a failed attempt can change the Quota
Tracker's counters.  With `requests_today = 5` recorded on day 0, an
attempt on day 1 first passes through `can_make_request`, whose day
rollover resets `requests_today` to 0; when `generate_content` then
raises, the state differs from the state before the attempt, refuting
"the state is unchanged by that attempt". -/
theorem quota_changed_on_failed_attempt :
    (can_make_request ⟨5, none, 0, ⟨0, 0⟩⟩ ⟨1, 86400⟩).fst = true ∧
    (failedAttemptQuota ⟨5, none, 0, ⟨0, 0⟩⟩ [⟨1, 86400⟩]).requests_today = 0 ∧
    failedAttemptQuota ⟨5, none, 0, ⟨0, 0⟩⟩ [⟨1, 86400⟩] ≠ ⟨5, none, 0, ⟨0, 0⟩⟩ := by
  decide

/-- Claim C10 (amended): a failed attempt never counts against the quota:
after the gate polling of a failed attempt the counters are at most their
previous values (they can only decrease, via the gate's rollover resets)
and `last_request_time` is unchanged, because `record_request` runs only
after `generate_content` returns; a successful attempt increments both
counters by exactly one and sets `last_request_time`. -/
theorem failed_attempt_quota (s : RateLimit) (ts : List DateTime) :
    (failedAttemptQuota s ts).requests_today ≤ s.requests_today ∧
    (failedAttemptQuota s ts).requests_this_minute ≤ s.requests_this_minute ∧
    (failedAttemptQuota s ts).last_request_time = s.last_request_time ∧
    ∀ t : DateTime,
      (successAttemptQuota s ts t).requests_today =
        (failedAttemptQuota s ts).requests_today + 1 ∧
      (successAttemptQuota s ts t).requests_this_minute =
        (failedAttemptQuota s ts).requests_this_minute + 1 ∧
      (successAttemptQuota s ts t).last_request_time = some t := by
  have h := pollGate_counters ts s
  exact ⟨h.1, h.2.1, h.2.2, fun t => ⟨rfl, rfl, rfl⟩⟩

theorem take_drop_slice (data : List String) (bs bn : Nat) :
    batchSlice data bs bn = (data.drop (bn * bs)).take bs := by
  unfold batchSlice
  rw [List.take_eq_take]
  simp only [List.length_drop]
  omega

theorem join_batchSlices (data : List String) (bs : Nat) :
    ∀ n : Nat, ((List.range n).map (batchSlice data bs)).flatten = data.take (n * bs) := by
  intro n
  induction n with
  | zero => simp
  | succ m ih =>
    rw [List.range_succ, List.map_append, List.flatten_append]
    simp only [List.map_cons, List.map_nil, List.flatten_cons, List.flatten_nil, List.append_nil]
    rw [ih, take_drop_slice, Nat.succ_mul, List.take_add]

/-- Claim C4: the run processes exactly
`min(max_batches, ceil(total / batch_size))` batches, whose concatenation
is the first `num_batches * batch_size` loaded comments; comments beyond
`batch_size * max_batches` are removed when loading.  In particular for
105 comments with batch size 20 and 3 max batches: loading keeps the
first 60 comments, exactly 3 batches of 20 are formed, and their
concatenation is exactly the first 60 input comments — the remaining 45
appear in no batch. -/
theorem batch_slicing (data : List String) (bs mb : Nat) :
    (batchSlices (load_data_truncate data bs mb) bs mb).length =
      num_batches (load_data_truncate data bs mb).length bs mb ∧
    (batchSlices (load_data_truncate data bs mb) bs mb).flatten =
      (load_data_truncate data bs mb).take
        (num_batches (load_data_truncate data bs mb).length bs mb * bs) ∧
    (data.length = 105 → bs = 20 → mb = 3 →
      load_data_truncate data bs mb = data.take 60 ∧
      num_batches (load_data_truncate data bs mb).length bs mb = 3 ∧
      (∀ s ∈ batchSlices (load_data_truncate data bs mb) bs mb, s.length = 20) ∧
      (batchSlices (load_data_truncate data bs mb) bs mb).flatten = data.take 60 ∧
      ((batchSlices (load_data_truncate data bs mb) bs mb).flatten).length = 60) := by
  refine ⟨by simp [batchSlices], ?_, ?_⟩
  · rw [batchSlices]
    exact join_batchSlices ..
  · intro h105 hbs hmb
    subst hbs; subst hmb
    have htr : load_data_truncate data 20 3 = data.take 60 := by
      simp [load_data_truncate, h105]
    have hlen : (load_data_truncate data 20 3).length = 60 := by
      rw [htr]; simp [h105]
    have hnb : num_batches (load_data_truncate data 20 3).length 20 3 = 3 := by
      rw [hlen]; rfl
    have hjoin : (batchSlices (load_data_truncate data 20 3) 20 3).flatten = data.take 60 := by
      rw [batchSlices, hnb, join_batchSlices (load_data_truncate data 20 3) 20, htr]
      simp [List.take_take]
    refine ⟨htr, hnb, ?_, hjoin, ?_⟩
    · intro s hs
      rw [batchSlices, hnb] at hs
      obtain ⟨bn, hbn, rfl⟩ := List.mem_map.mp hs
      rw [List.mem_range] at hbn
      rw [take_drop_slice]
      simp only [List.length_take, List.length_drop, hlen]
      omega
    · rw [hjoin]
      simp [h105]

theorem batch_slicing_witness :
    num_batches (load_data_truncate (List.replicate 105 "x") 20 3).length 20 3 = 3 ∧
    ((batchSlices (load_data_truncate (List.replicate 105 "x") 20 3) 20 3).flatten).length = 60 := by
  have h := (batch_slicing (List.replicate 105 "x") 20 3).2.2 (by simp) rfl rfl
  exact ⟨h.2.1, h.2.2.2.2⟩

/-! ### Lemmas about the batch loop of `analyze_all_comments` -/

theorem runBatches_succ (doBatch : Nat → List String → Option (List Row))
    (data : List String) (bs n : Nat) :
    runBatches doBatch data bs (n + 1) =
      runStep doBatch data bs (runBatches doBatch data bs n) n := by
  unfold runBatches
  rw [List.range_succ, List.foldl_append]
  rfl

/-- Claim C6: after every batch of a run — whether its body produced rows
or raised — the entire accumulated Result Table is written to the single
checkpoint slot (overwriting it), and the table only ever grows: the
state after batch `k` extends the state before it by exactly that batch's
rows (none when the batch raised). -/
theorem checkpoint_after_every_batch (doBatch : Nat → List String → Option (List Row))
    (data : List String) (bs mb k : Nat)
    (_hk : k < num_batches data.length bs mb) :
    (runBatches doBatch data bs (k + 1)).checkpoint =
      some (runBatches doBatch data bs (k + 1)).results ∧
    (runBatches doBatch data bs (k + 1)).results =
      (runBatches doBatch data bs k).results ++
        (doBatch k (batchSlice data bs k)).getD [] ∧
    analyze_all doBatch data bs mb =
      runBatches doBatch data bs (num_batches data.length bs mb) := by
  refine ⟨?_, ?_, rfl⟩ <;>
  · rw [runBatches_succ]
    unfold runStep
    cases doBatch k (batchSlice data bs k) <;> simp

theorem checkpoint_after_every_batch_witness :
    (runBatches (fun _ _ => some ([] : List Row)) ["a"] 1 1).checkpoint =
      some (runBatches (fun _ _ => some ([] : List Row)) ["a"] 1 1).results := by
  exact (checkpoint_after_every_batch (fun _ _ => some []) ["a"] 1 1 0 (by decide)).1

theorem annotate_some_spec (start : Nat) (batch : List String) :
    ∀ (vs : List Verdict) (i : Nat), i + vs.length ≤ batch.length →
      ∃ rows, annotate start batch vs i = some rows ∧ rows.length = vs.length ∧
        ∀ j c, j < vs.length → batch.get? (i + j) = some c →
          ∃ v, vs.get? j = some v ∧ rows.get? j = some (mkRow (start + i + j) c v) := by
  intro vs
  induction vs with
  | nil =>
    intro i _
    exact ⟨[], rfl, rfl, fun j c hj _ => absurd hj (by simp)⟩
  | cons v vs ih =>
    intro i hlen
    have hi : i < batch.length := by simp only [List.length_cons] at hlen; omega
    obtain ⟨c0, hc0⟩ : ∃ c0, batch.get? i = some c0 := ⟨_, List.get?_eq_get hi⟩
    obtain ⟨rows, hrows, hrlen, hget⟩ := ih (i + 1)
      (by simp only [List.length_cons] at hlen; omega)
    refine ⟨mkRow (start + i) c0 v :: rows, ?_, by simp [hrlen], ?_⟩
    · have hc0' : batch[i]? = some c0 := by rw [← List.get?_eq_getElem?]; exact hc0
      simp [annotate, hc0', hrows]
    · intro j c hj hbc
      cases j with
      | zero =>
        rw [Nat.add_zero] at hbc
        rw [hc0] at hbc
        injection hbc with hbc
        subst hbc
        exact ⟨v, rfl, by simp⟩
      | succ jj =>
        have hj' : jj < vs.length := by simp only [List.length_cons] at hj; omega
        have hbc' : batch.get? (i + 1 + jj) = some c := by
          rw [← hbc]; congr 1; omega
        obtain ⟨v', hv', hr'⟩ := hget jj c hj' hbc'
        refine ⟨v', by simpa using hv', ?_⟩
        have hidx : start + (i + 1) + jj = start + i + (jj + 1) := by omega
        rw [hidx] at hr'
        simpa using hr'

theorem coordinatorBatch_spec (profane : String → Bool) (att : Nat → Nat → Attempt)
    (dec : Nat → Nat → Bool) (up : Bool) (bs bn : Nat) (batch : List String) :
    ∃ rows, coordinatorBatch profane att dec up bs bn batch = some rows ∧
      rows.length = batch.length ∧
      ∀ j c, j < batch.length → batch.get? j = some c →
        ∃ v, rows.get? j = some (mkRow (bn * bs + j) c v) := by
  have hlen := process_batch_fst_length profane (att bn) (dec bn) up batch
  obtain ⟨rows, hrows, hrlen, hget⟩ := annotate_some_spec (bn * bs) batch
    (process_batch profane (att bn) (dec bn) up batch).fst 0 (by omega)
  refine ⟨rows, hrows, by rw [hrlen, hlen], ?_⟩
  intro j c hj hc
  obtain ⟨v, _, hr⟩ := hget j c (by omega) (by simpa using hc)
  exact ⟨v, by simpa using hr⟩

theorem runBatches_results_spec (profane : String → Bool) (att : Nat → Nat → Attempt)
    (dec : Nat → Nat → Bool) (up : Bool) (d : List String) (bs : Nat) :
    ∀ n : Nat,
      (runBatches (coordinatorBatch profane att dec up bs) d bs n).results.length =
        min (n * bs) d.length ∧
      ∀ p c, d.get? p = some c →
        p < (runBatches (coordinatorBatch profane att dec up bs) d bs n).results.length →
        ∃ v, (runBatches (coordinatorBatch profane att dec up bs) d bs n).results.get? p =
          some (mkRow p c v) := by
  intro n
  induction n with
  | zero =>
    constructor
    · simp [runBatches]
    · intro p c _ hp
      simp [runBatches] at hp
  | succ m ih =>
    obtain ⟨ihlen, ihget⟩ := ih
    rw [runBatches_succ]
    set st := runBatches (coordinatorBatch profane att dec up bs) d bs m with hst
    obtain ⟨rows, hrows, hrlen, hget⟩ :=
      coordinatorBatch_spec profane att dec up bs m (batchSlice d bs m)
    have hslice_len : (batchSlice d bs m).length = min (m * bs + bs) d.length - m * bs := by
      rw [take_drop_slice]
      simp only [List.length_take, List.length_drop]
      omega
    have hstep : runStep (coordinatorBatch profane att dec up bs) d bs st m =
        { results := st.results ++ rows, checkpoint := some (st.results ++ rows) } := by
      unfold runStep
      rw [hrows]
    rw [hstep]
    constructor
    · simp only [List.length_append, ihlen, hrlen, hslice_len]
      rw [Nat.succ_mul]
      omega
    · intro p c hc hp
      simp only [List.length_append] at hp
      by_cases hlt : p < st.results.length
      · obtain ⟨v, hv⟩ := ihget p c hc hlt
        refine ⟨v, ?_⟩
        show (st.results ++ rows).get? p = some (mkRow p c v)
        rw [List.get?_append hlt]
        exact hv
      · push_neg at hlt
        rw [hrlen, hslice_len] at hp
        have hAm : st.results.length = m * bs := by
          rw [ihlen] at hlt ⊢
          omega
        have hjlt : p - st.results.length < (batchSlice d bs m).length := by
          rw [hslice_len, hAm]
          rw [ihlen] at hlt
          omega
        have hjbs : p - st.results.length < bs := by
          rw [hslice_len] at hjlt
          omega
        have hbc : (batchSlice d bs m).get? (p - st.results.length) = some c := by
          rw [take_drop_slice, List.get?_eq_getElem?, List.getElem?_take_of_lt hjbs,
            List.getElem?_drop, ← List.get?_eq_getElem?]
          rw [show m * bs + (p - st.results.length) = p from by omega]
          exact hc
        obtain ⟨v, hv⟩ := hget (p - st.results.length) c hjlt hbc
        refine ⟨v, ?_⟩
        show (st.results ++ rows).get? p = some (mkRow p c v)
        rw [List.get?_append_right hlt]
        rw [show m * bs + (p - st.results.length) = p from by omega] at hv
        exact hv

/-- Claim C7: in the Result Table, the row at absolute 0-based position
`p` carries `comment_id = p`, the synthesized username
`"user_" ++ toString p`, and the original input text at position `p`
(all fixed by `mkRow`).  For a 25-comment input with batch size 20 and
max 2 batches, the final table has 25 rows (ids 0..24 in order by the
general part) and the checkpoint written after batch 1 contains exactly
20 rows. -/
theorem result_row_fields (profane : String → Bool) (att : Nat → Nat → Attempt)
    (dec : Nat → Nat → Bool) (up : Bool) (data : List String) (bs mb : Nat) :
    (analyze_all_comments profane att dec up data bs mb).results.length =
      min (num_batches (load_data_truncate data bs mb).length bs mb * bs)
        (load_data_truncate data bs mb).length ∧
    (∀ p c, (load_data_truncate data bs mb).get? p = some c →
      p < (analyze_all_comments profane att dec up data bs mb).results.length →
      ∃ v, (analyze_all_comments profane att dec up data bs mb).results.get? p =
        some (mkRow p c v)) ∧
    (data.length = 25 → bs = 20 → mb = 2 →
      load_data_truncate data bs mb = data ∧
      (analyze_all_comments profane att dec up data bs mb).results.length = 25 ∧
      ∃ r, (runBatches (coordinatorBatch profane att dec up 20) data 20 1).checkpoint =
        some r ∧ r.length = 20) := by
  have hspec := runBatches_results_spec profane att dec up (load_data_truncate data bs mb) bs
    (num_batches (load_data_truncate data bs mb).length bs mb)
  refine ⟨hspec.1, hspec.2, ?_⟩
  intro h25 hbs hmb
  subst hbs; subst hmb
  have htr : load_data_truncate data 20 2 = data := by
    simp [load_data_truncate, h25]
  have hnb : num_batches (load_data_truncate data 20 2).length 20 2 = 2 := by
    rw [htr, h25]; rfl
  have h1 : (analyze_all_comments profane att dec up data 20 2).results.length =
      min (num_batches (load_data_truncate data 20 2).length 20 2 * 20)
        (load_data_truncate data 20 2).length := hspec.1
  have hlen : (analyze_all_comments profane att dec up data 20 2).results.length = 25 := by
    rw [h1, hnb, htr, h25]
    norm_num
  refine ⟨htr, hlen, ?_⟩
  obtain ⟨rows, hrows, hrlen, _⟩ :=
    coordinatorBatch_spec profane att dec up 20 0 (batchSlice data 20 0)
  have hsucc : runBatches (coordinatorBatch profane att dec up 20) data 20 1 =
      runStep (coordinatorBatch profane att dec up 20) data 20
        (runBatches (coordinatorBatch profane att dec up 20) data 20 0) 0 :=
    runBatches_succ ..
  have h0 : runBatches (coordinatorBatch profane att dec up 20) data 20 0 =
      { results := [], checkpoint := none } := rfl
  refine ⟨rows, ?_, ?_⟩
  · rw [hsucc, h0]
    unfold runStep
    rw [hrows]
    simp
  · rw [hrlen, take_drop_slice]
    simp [h25]

theorem result_row_fields_witness :
    ∃ v, (analyze_all_comments (fun _ => true) (fun _ _ => Attempt.ok [sampleVerdict])
      (fun _ _ => true) false ["hi"] 20 50).results.get? 0 = some (mkRow 0 "hi" v) := by
  have h := result_row_fields (fun _ => true) (fun _ _ => Attempt.ok [sampleVerdict])
    (fun _ _ => true) false ["hi"] 20 50
  apply h.2.1 0 "hi" rfl
  rw [h.1]
  decide

/-- Claim C9: for two four-row result tables keyed by matching
`comment_id` values with agreement counts tp = 2, fp = 1, fn = 0,
tn = 1, the comparison computes exactly accuracy = 3/4,
precision = 2/3, recall = 1 and F1 = 4/5 (a metric whose denominator is
0 is defined as 0). -/
theorem comparison_metrics :
    confusionCounts ((mergeRows cmpFiltered cmpOriginal).take
      (min cmpFiltered.length cmpOriginal.length)) = (2, 1, 0, 1) ∧
    compare_prefilter_results cmpFiltered cmpOriginal = (3/4, 2/3, 1, 4/5) := by
  have hc : confusionCounts ((mergeRows cmpFiltered cmpOriginal).take
      (min cmpFiltered.length cmpOriginal.length)) = (2, 1, 0, 1) := by decide
  refine ⟨hc, ?_⟩
  have hn : min cmpFiltered.length cmpOriginal.length = 4 := by decide
  simp only [compare_prefilter_results, hn] at hc ⊢
  rw [hc]
  norm_num

end HateAnalysis
